import Mathlib

/-
Verification of the COM bot core (src/bot.py): abuse gate, FP ledger,
role synchronizer, warning store and the legacy warnings-table migration.
Each definition is a shallow embedding of the corresponding function in
src/bot.py; time is modelled as an integer number of seconds and the
sqlite tables as Lean lists.
-/

namespace ComBot

/- ------------------ Abuse Gate (manage_roles_only, bot.py 163-192) ------------------ -/

/-- The constant MAX_ATTEMPTS = 3 from bot.py line 15. -/
def MAX_ATTEMPTS : Nat := 3

/-- The constant WINDOW_SECONDS = 60 from bot.py line 16. -/
def WINDOW_SECONDS : Int := 60

/-- Per-user entry of the unauth-attempts map: attempt count and last timestamp.
The defaultdict initial value is count 0, timestamp 0.0 (bot.py line 14). -/
structure GateState where
  count : Nat
  lastTs : Int
deriving DecidableEq

/-- The two reply messages the gate can emit (bot.py lines 186 and 189). -/
inductive GateMsg
  | escalated
  | defaultMsg
deriving DecidableEq

/-- Shallow embedding of the predicate inside manage_roles_only (bot.py 163-192):
given whether the caller holds manage_roles or administrator, the current time
and the stored per-user state, it returns (allowed, emitted message, new state). -/
def manage_roles_only (has_perm : Bool) (now : Int) (st : GateState) :
    Bool × Option GateMsg × GateState :=
  if has_perm then
    (true, none, ⟨0, 0⟩)
  else
    let count0 := if now - st.lastTs > WINDOW_SECONDS then 0 else st.count
    let count := count0 + 1
    if count ≥ MAX_ATTEMPTS then
      (false, some GateMsg.escalated, ⟨count, now⟩)
    else
      (false, some GateMsg.defaultMsg, ⟨count, now⟩)

/- ------------------ FP ledger (get_fp / set_fp, bot.py 109-122) ------------------ -/

/-- The user_fp table: user id to stored fp value, none when no row exists. -/
abbrev FpStore := Nat → Option Int

/-- Embedding of get_fp (bot.py 109-114): stored value, or 0 when no row. -/
def get_fp (s : FpStore) (user_id : Nat) : Int :=
  (s user_id).getD 0

/-- Embedding of set_fp (bot.py 116-122): upsert of the fp value. -/
def set_fp (s : FpStore) (user_id : Nat) (value : Int) : FpStore :=
  fun u => if u = user_id then some value else s u

/-- Body of the fp command (bot.py 197-200): read current, add delta, write,
and the new value that the command reports. -/
def fp_command (s : FpStore) (user_id : Nat) (delta : Int) : Int × FpStore :=
  let current := get_fp s user_id
  let new := current + delta
  (new, set_fp s user_id new)

/- ------------------ Theorems: C3, C4, C7 ------------------ -/

/-- C3: for an unauthorized caller the gate denies the call; within the
60-unit window the 1st and 2nd attempts produce the default message and the
attempt whose count reaches 3 produces the escalated one; when the time since
the last attempt exceeds 60 units the behaviour equals that of a caller whose
count was reset to 0, so the next attempt behaves like attempt 1 again. -/
theorem abuse_gate_unauthorized_spec (st : GateState) (now : Int) :
    (manage_roles_only false now st).1 = false
  ∧ (now - st.lastTs ≤ WINDOW_SECONDS → st.count + 1 < MAX_ATTEMPTS →
      (manage_roles_only false now st).2.1 = some GateMsg.defaultMsg)
  ∧ (now - st.lastTs ≤ WINDOW_SECONDS → st.count + 1 ≥ MAX_ATTEMPTS →
      (manage_roles_only false now st).2.1 = some GateMsg.escalated)
  ∧ (now - st.lastTs > WINDOW_SECONDS →
      manage_roles_only false now st = manage_roles_only false now ⟨0, now⟩) := by
  refine ⟨?_, ?_, ?_, ?_⟩
  · simp only [manage_roles_only, Bool.false_eq_true, if_false]
    split_ifs <;> rfl
  · intro hwin hcnt
    simp only [MAX_ATTEMPTS, WINDOW_SECONDS] at hwin hcnt
    simp only [manage_roles_only, MAX_ATTEMPTS, WINDOW_SECONDS, Bool.false_eq_true, if_false]
    split_ifs <;> first | rfl | omega
  · intro hwin hcnt
    simp only [MAX_ATTEMPTS, WINDOW_SECONDS] at hwin hcnt
    simp only [manage_roles_only, MAX_ATTEMPTS, WINDOW_SECONDS, Bool.false_eq_true, if_false]
    split_ifs <;> first | rfl | omega
  · intro hwin
    simp only [WINDOW_SECONDS] at hwin
    simp only [manage_roles_only, MAX_ATTEMPTS, WINDOW_SECONDS, Bool.false_eq_true, if_false]
    split_ifs <;> first | rfl | omega

/-- Witness for C3 at a concrete state: the second attempt 10 units after the
first still produces the default message. -/
theorem abuse_gate_unauthorized_spec_witness :
    (manage_roles_only false 10 ⟨1, 0⟩).2.1 = some GateMsg.defaultMsg :=
  (abuse_gate_unauthorized_spec ⟨1, 0⟩ 10).2.1 (by decide) (by decide)

/-- C7 counterexample: an authorized call at time 100 from state (2, 50) is
allowed but stores state (0, 0), not (0, now) = (0, 100) as the claim states. -/
theorem abuse_gate_authorized_counterexample :
    (manage_roles_only true 100 ⟨2, 50⟩).1 = true
  ∧ (manage_roles_only true 100 ⟨2, 50⟩).2.2 ≠ GateState.mk 0 100 := by
  decide

/-- C7 amended: whenever the caller is authorized the gate allows the call and
resets the AttemptCounter state to count 0 with last-attempt time 0 (the
pristine defaultdict value), which is observably equivalent to a fresh counter. -/
theorem abuse_gate_authorized_reset (now : Int) (st : GateState) :
    manage_roles_only true now st = (true, none, GateState.mk 0 0) := rfl

/-- C4: applying delta a and then delta b to a user whose score row is absent
yields the same final store as a single absolute set to a + b, and the second
application returns a + b. -/
theorem apply_delta_compose (s : FpStore) (u : Nat) (a b : Int) (h : s u = none) :
    (fp_command (fp_command s u a).2 u b).2 = set_fp s u (a + b)
  ∧ (fp_command (fp_command s u a).2 u b).1 = a + b := by
  constructor
  · funext x
    by_cases hx : x = u <;>
      simp [fp_command, get_fp, set_fp, hx, h]
  · simp [fp_command, get_fp, set_fp, h]

/-- Witness for C4: deltas 2 then 3 on an empty store for user 7 equal a
single set to 5. -/
theorem apply_delta_compose_witness :
    ((fp_command (fp_command (fun _ => none) 7 2).2 7 3).2
        = set_fp (fun _ => none) 7 (2 + 3))
  ∧ (fp_command (fp_command (fun _ => none) 7 2).2 7 3).1 = 2 + 3 :=
  apply_delta_compose (fun _ => none) 7 2 3 rfl

/- ------------------ Role synchronizer (bot.py 125-146) ------------------ -/

/-- An external guild role: a snowflake id and a name. -/
structure Role where
  id : Nat
  name : String
deriving DecidableEq

/-- Whitespace class of the regex escape backslash-s in Python. -/
def isPySpace (c : Char) : Bool :=
  c == ' ' || c == '\t' || c == '\n' || c == '\r' || c == '\x0b' || c == '\x0c'

/-- Embedding of the anchored regex of fp_role_pattern (bot.py 125): one or
more digits, then optional whitespace, then the two letters F and P in any
case, and nothing after. -/
def fp_role_pattern (cs : List Char) : Bool :=
  !(cs.takeWhile Char.isDigit).isEmpty &&
    (match (cs.dropWhile Char.isDigit).dropWhile isPySpace with
     | [c1, c2] => (c1 == 'F' || c1 == 'f') && (c2 == 'P' || c2 == 'p')
     | _ => false)

/-- Embedding of is_fp_role (bot.py 127-128). -/
def is_fp_role (r : Role) : Bool := fp_role_pattern r.name.data

/-- The target role name computed at bot.py line 138. -/
def fp_role_name (new_fp : Int) : String := toString new_fp ++ " FP"

/-- Model of the external group-membership service: the namespace of guild
roles and which removals or attachments it refuses (discord.Forbidden). -/
structure RoleEnv where
  guild_roles : List Role
  remove_refused : Role → Bool
  add_refused : Role → Bool

/-- Model of the discord.py call member.remove_roles(*roles) at bot.py 134:
the roles are removed one per request in order, and a refused request raises,
aborting the removal of every role after it (the exception is what the
surrounding try swallows). -/
def remove_roles_atomic (refused : Role → Bool) : List Role → List Role → List Role
  | held, [] => held
  | held, r :: rs =>
    if refused r then held
    else remove_roles_atomic refused (held.filter (fun h => h.id ≠ r.id)) rs

/-- Modelled from the spec: the removal step as the spec describes it, where a
refused label is skipped and removal continues with the rest of the matched
labels. This definition exists only to compare the spec wording with the code. -/
def remove_roles_spec (refused : Role → Bool) (held : List Role) (rs : List Role) :
    List Role :=
  rs.foldl (fun h r => if refused r then h else h.filter (fun x => x.id ≠ r.id)) held

/-- Removal phase of sync_member_fp_role (bot.py 131-136): collect the roles
matching the fp pattern and best-effort remove them. -/
def sync_removal_phase (env : RoleEnv) (member_roles : List Role) : List Role :=
  let roles_to_remove := member_roles.filter is_fp_role
  if roles_to_remove.isEmpty then member_roles
  else remove_roles_atomic env.remove_refused member_roles roles_to_remove

/-- Embedding of sync_member_fp_role (bot.py 130-146): returns the boolean the
function returns and the final role list of the member. -/
def sync_member_fp_role (env : RoleEnv) (member_roles : List Role) (new_fp : Int) :
    Bool × List Role :=
  let held := sync_removal_phase env member_roles
  match env.guild_roles.find? (fun r => r.name = fp_role_name new_fp) with
  | some target =>
      if env.add_refused target then (true, held)
      else if held.any (fun h => h.id = target.id) then (true, held)
      else (true, held ++ [target])
  | none => (false, held)

/-- When nothing is refused, the sequential removal deletes exactly the ids of
the listed roles. -/
theorem remove_roles_atomic_no_refusal (refused : Role → Bool) :
    ∀ rs : List Role, (∀ r ∈ rs, refused r = false) → ∀ held : List Role,
      remove_roles_atomic refused held rs
        = held.filter (fun x => rs.all (fun r => decide (x.id ≠ r.id))) := by
  intro rs
  induction rs with
  | nil => intro _ held; simp [remove_roles_atomic]
  | cons r rs ih =>
    intro h held
    rw [remove_roles_atomic, h r (List.mem_cons_self r rs)]
    simp only [Bool.false_eq_true, if_false]
    rw [ih (fun x hx => h x (List.mem_cons_of_mem r hx)), List.filter_filter]
    congr 1
    funext x
    simp [Bool.and_comm]

/-- The sequential removal never touches a role listed after a refused one. -/
theorem remove_roles_atomic_stops (refused : Role → Bool) (r : Role)
    (hr : refused r = true) :
    ∀ pre held post : List Role,
      remove_roles_atomic refused held (pre ++ r :: post)
        = remove_roles_atomic refused held pre := by
  intro pre
  induction pre with
  | nil => intro held post; simp [remove_roles_atomic, hr]
  | cons x xs ih =>
    intro held post
    simp only [List.cons_append, remove_roles_atomic]
    by_cases hx : refused x = true
    · rw [if_pos hx, if_pos hx]
    · rw [if_neg hx, if_neg hx]
      exact ih _ post

/-- Under no refusals the removal phase keeps exactly the member roles whose
id differs from every role matching the fp pattern. -/
theorem sync_removal_phase_no_refusal (env : RoleEnv) (member_roles : List Role)
    (hrm : ∀ r, env.remove_refused r = false) :
    sync_removal_phase env member_roles
      = member_roles.filter
          (fun x => (member_roles.filter is_fp_role).all (fun r => decide (x.id ≠ r.id))) := by
  rw [sync_removal_phase]
  by_cases hemp : (member_roles.filter is_fp_role).isEmpty = true
  · rw [if_pos hemp]
    rw [List.isEmpty_iff] at hemp
    rw [hemp]
    simp
  · rw [if_neg hemp]
    exact remove_roles_atomic_no_refusal env.remove_refused _ (fun r _ => hrm r) member_roles

/-- Shape of the sync result as a function of the target lookup. -/
theorem sync_member_fp_role_eq (env : RoleEnv) (member_roles : List Role) (new_fp : Int) :
    (env.guild_roles.find? (fun r => r.name = fp_role_name new_fp) = none →
      sync_member_fp_role env member_roles new_fp
        = (false, sync_removal_phase env member_roles))
  ∧ (∀ t, env.guild_roles.find? (fun r => r.name = fp_role_name new_fp) = some t →
      (sync_member_fp_role env member_roles new_fp).1 = true
      ∧ ((sync_member_fp_role env member_roles new_fp).2
            = sync_removal_phase env member_roles
        ∨ (sync_member_fp_role env member_roles new_fp).2
            = sync_removal_phase env member_roles ++ [t])) := by
  constructor
  · intro hfind
    simp only [sync_member_fp_role]
    rw [hfind]
  · intro t hfind
    simp only [sync_member_fp_role]
    rw [hfind]
    dsimp only
    constructor
    · split_ifs <;> rfl
    · split_ifs <;> simp

/-- C5: under an external system that refuses nothing, and with the member
holding pairwise-distinct role ids, sync returns true exactly when a guild
role named after the target score exists; afterwards every fp-pattern role the
member holds is named after the target score (no other score label remains),
and every held role not matching the pattern is still held. -/
theorem sync_role_spec (env : RoleEnv) (member_roles : List Role) (new_fp : Int)
    (hrm : ∀ r, env.remove_refused r = false)
    (hids : (member_roles.map Role.id).Nodup) :
    ((sync_member_fp_role env member_roles new_fp).1 = true
        ↔ ∃ r ∈ env.guild_roles, r.name = fp_role_name new_fp)
  ∧ (∀ r ∈ (sync_member_fp_role env member_roles new_fp).2,
        is_fp_role r = true → r.name = fp_role_name new_fp)
  ∧ (∀ r ∈ member_roles, is_fp_role r = false →
        r ∈ (sync_member_fp_role env member_roles new_fp).2) := by
  have hphase := sync_removal_phase_no_refusal env member_roles hrm
  have hA : ∀ x ∈ sync_removal_phase env member_roles, is_fp_role x = true → False := by
    intro x hx hfp
    rw [hphase, List.mem_filter] at hx
    have hxr : x ∈ member_roles.filter is_fp_role := List.mem_filter.mpr ⟨hx.1, hfp⟩
    have hall := List.all_eq_true.mp hx.2 x hxr
    simp at hall
  have hB : ∀ x ∈ member_roles, is_fp_role x = false →
      x ∈ sync_removal_phase env member_roles := by
    intro x hx hfp
    rw [hphase, List.mem_filter]
    refine ⟨hx, List.all_eq_true.mpr ?_⟩
    intro r hr
    have hr' := List.mem_filter.mp hr
    simp only [decide_eq_true_eq]
    intro heq
    have hxr : x = r := List.inj_on_of_nodup_map hids hx hr'.1 heq
    have h2 := hr'.2
    rw [← hxr, hfp] at h2
    exact Bool.noConfusion h2
  cases hfind : env.guild_roles.find? (fun r => r.name = fp_role_name new_fp) with
  | none =>
    have hs := (sync_member_fp_role_eq env member_roles new_fp).1 hfind
    refine ⟨?_, ?_, ?_⟩
    · rw [hs]
      constructor
      · intro h; exact Bool.noConfusion h
      · rintro ⟨r, hrg, hrn⟩
        have hnone := List.find?_eq_none.mp hfind r hrg
        exact absurd (by simp [hrn]) hnone
    · intro r hrmem hfp
      rw [hs] at hrmem
      exact (hA r hrmem hfp).elim
    · intro r hrm2 hfp
      rw [hs]
      exact hB r hrm2 hfp
  | some t =>
    obtain ⟨h1, h2⟩ := (sync_member_fp_role_eq env member_roles new_fp).2 t hfind
    have htmem : t ∈ env.guild_roles := List.mem_of_find?_eq_some hfind
    have htname : t.name = fp_role_name new_fp := by
      have hp := List.find?_some hfind
      simpa using hp
    refine ⟨?_, ?_, ?_⟩
    · rw [h1]
      exact ⟨fun _ => ⟨t, htmem, htname⟩, fun _ => rfl⟩
    · intro r hrmem hfp
      rcases h2 with h2 | h2 <;> rw [h2] at hrmem
      · exact (hA r hrmem hfp).elim
      · rcases List.mem_append.mp hrmem with hl | hr2
        · exact (hA r hl hfp).elim
        · rw [List.mem_singleton] at hr2
          rw [hr2]
          exact htname
    · intro r hrm2 hfp
      have hm := hB r hrm2 hfp
      rcases h2 with h2 | h2 <;> rw [h2]
      · exact hm
      · exact List.mem_append_left _ hm

/-- Witness for C5 at the concrete example of the spec: guild roles 12 FP and
Moderator, member holding 7 FP and Moderator, target score 12. -/
theorem sync_role_spec_witness :
    ((sync_member_fp_role
          ⟨[⟨1, "12 FP"⟩, ⟨9, "Moderator"⟩], fun _ => false, fun _ => false⟩
          [⟨2, "7 FP"⟩, ⟨9, "Moderator"⟩] 12).1 = true
        ↔ ∃ r ∈ (RoleEnv.mk [⟨1, "12 FP"⟩, ⟨9, "Moderator"⟩]
              (fun _ => false) (fun _ => false)).guild_roles,
            r.name = fp_role_name 12)
  ∧ (∀ r ∈ (sync_member_fp_role
          ⟨[⟨1, "12 FP"⟩, ⟨9, "Moderator"⟩], fun _ => false, fun _ => false⟩
          [⟨2, "7 FP"⟩, ⟨9, "Moderator"⟩] 12).2,
        is_fp_role r = true → r.name = fp_role_name 12)
  ∧ (∀ r ∈ [Role.mk 2 "7 FP", Role.mk 9 "Moderator"], is_fp_role r = false →
        r ∈ (sync_member_fp_role
          ⟨[⟨1, "12 FP"⟩, ⟨9, "Moderator"⟩], fun _ => false, fun _ => false⟩
          [⟨2, "7 FP"⟩, ⟨9, "Moderator"⟩] 12).2) :=
  sync_role_spec
    ⟨[⟨1, "12 FP"⟩, ⟨9, "Moderator"⟩], fun _ => false, fun _ => false⟩
    [⟨2, "7 FP"⟩, ⟨9, "Moderator"⟩] 12 (fun _ => rfl) (by decide)

/-- C6 counterexample: with two matched fp labels where removal of the first
is refused, the code leaves both labels on the member (the refusal aborts the
pass), while the removal step as the spec words it (skip the refused label and
continue with the rest) would have removed the second one. -/
theorem sync_removal_stops_counterexample :
    ((sync_member_fp_role ⟨[], fun r => r.id == 1, fun _ => false⟩
        [⟨1, "7 FP"⟩, ⟨2, "8 FP"⟩] 9).2 = [⟨1, "7 FP"⟩, ⟨2, "8 FP"⟩])
  ∧ remove_roles_spec (fun r => r.id == 1) [⟨1, "7 FP"⟩, ⟨2, "8 FP"⟩]
      (List.filter is_fp_role [⟨1, "7 FP"⟩, ⟨2, "8 FP"⟩])
      = [⟨1, "7 FP"⟩] := by
  decide

/-- C6 amended: a removal refusal is swallowed and never reported: the sync
result depends only on the target-role lookup, whatever the external system
refuses; however a refusal aborts the removal pass, so every matched label
listed after the refused one is left in place rather than removed. -/
theorem sync_removal_best_effort :
    (∀ (env : RoleEnv) (member_roles : List Role) (new_fp : Int),
        (sync_member_fp_role env member_roles new_fp).1
          = (env.guild_roles.find? (fun r => r.name = fp_role_name new_fp)).isSome)
  ∧ (∀ (refused : Role → Bool) (r : Role), refused r = true →
        ∀ pre held post : List Role,
          remove_roles_atomic refused held (pre ++ r :: post)
            = remove_roles_atomic refused held pre) := by
  constructor
  · intro env mr fp
    cases hfind : env.guild_roles.find? (fun r => r.name = fp_role_name fp) with
    | none =>
      rw [(sync_member_fp_role_eq env mr fp).1 hfind]
      rfl
    | some t =>
      rw [((sync_member_fp_role_eq env mr fp).2 t hfind).1]
      rfl
  · intro refused r hr pre held post
    exact remove_roles_atomic_stops refused r hr pre held post

/-- Witness for C6: the refused first label aborts the pass, so removing the
two matched labels equals removing none of them. -/
theorem sync_removal_best_effort_witness :
    remove_roles_atomic (fun r => r.id == 1) [⟨1, "7 FP"⟩, ⟨2, "8 FP"⟩]
        ([] ++ ⟨1, "7 FP"⟩ :: [⟨2, "8 FP"⟩])
      = remove_roles_atomic (fun r => r.id == 1) [⟨1, "7 FP"⟩, ⟨2, "8 FP"⟩] [] :=
  sync_removal_best_effort.2 (fun r => r.id == 1) ⟨1, "7 FP"⟩ rfl
    [] [⟨1, "7 FP"⟩, ⟨2, "8 FP"⟩] [⟨2, "8 FP"⟩]

/- ------------------ Warning store (bot.py 287-350) ------------------ -/

/-- A row of the user_warnings table in current shape. -/
structure WarnRow where
  id : Nat
  user_id : Nat
  reason : String
  date : String
deriving DecidableEq

/-- The user_warnings table plus the AUTOINCREMENT counter that sqlite keeps:
every freshly inserted row receives next_id, ids are never reused. -/
structure WarnDB where
  rows : List WarnRow
  next_id : Nat
deriving DecidableEq

/-- Embedding of add_warning (bot.py 287-302): append one row carrying the
given reason and the current date. -/
def add_warning (db : WarnDB) (user_id : Nat) (reason : String) (today : String) :
    WarnDB :=
  ⟨db.rows ++ [⟨db.next_id, user_id, reason, today⟩], db.next_id + 1⟩

/-- Reason defaulting of the warn command (bot.py 354-356): a missing or empty
reason becomes the canned string. -/
def warn_effective_reason (reason : Option String) : String :=
  match reason with
  | none => "Warning administered"
  | some s => if s = "" then "Warning administered" else s

/-- One insertion step of the ORDER BY id ASC model. -/
def insertById (r : WarnRow) : List WarnRow → List WarnRow
  | [] => [r]
  | x :: xs => if r.id ≤ x.id then r :: x :: xs else x :: insertById r xs

/-- Sorting by id, the embedding of ORDER BY id ASC. -/
def sortById (l : List WarnRow) : List WarnRow := l.foldr insertById []

/-- Embedding of get_all_warnings (bot.py 304-321): the (reason, date) pairs
of the user, ordered by id ascending. -/
def get_all_warnings (db : WarnDB) (user_id : Nat) : List (String × String) :=
  (sortById (db.rows.filter (fun r => r.user_id = user_id))).map
    (fun r => (r.reason, r.date))

/-- Embedding of remove_last_warning (bot.py 333-350): select the row of the
user with the highest id (ORDER BY id DESC LIMIT 1); if none, return false,
else delete the rows carrying that id and return true. -/
def remove_last_warning (db : WarnDB) (user_id : Nat) : Bool × WarnDB :=
  match (sortById (db.rows.filter (fun r => r.user_id = user_id))).getLast? with
  | none => (false, db)
  | some last => (true, ⟨db.rows.filter (fun r => r.id ≠ last.id), db.next_id⟩)

/-- Inserting below an upper bound commutes with appending that bound. -/
theorem insertById_append_last (a b : WarnRow) (hab : a.id ≤ b.id) :
    ∀ s : List WarnRow, insertById a (s ++ [b]) = insertById a s ++ [b] := by
  intro s
  induction s with
  | nil =>
    simp [insertById, hab]
  | cons x s ih =>
    simp only [List.cons_append, insertById]
    split_ifs
    · rfl
    · exact congrArg (List.cons x) ih

/-- Sorting a list followed by an element at least as large as every entry
keeps that element last. -/
theorem sortById_append_big (r : WarnRow) :
    ∀ l : List WarnRow, (∀ x ∈ l, x.id ≤ r.id) →
      sortById (l ++ [r]) = sortById l ++ [r] := by
  intro l
  induction l with
  | nil => simp [sortById, insertById]
  | cons a l ih =>
    intro h
    have ha : a.id ≤ r.id := h a (List.mem_cons_self a l)
    simp only [List.cons_append, sortById, List.foldr_cons]
    rw [show List.foldr insertById [] (l ++ [r]) = sortById (l ++ [r]) from rfl]
    rw [ih (fun x hx => h x (List.mem_cons_of_mem a hx))]
    exact insertById_append_last a r ha (sortById l)

/-- Insertion produces a permutation of consing. -/
theorem insertById_perm (r : WarnRow) :
    ∀ l : List WarnRow, List.Perm (insertById r l) (r :: l) := by
  intro l
  induction l with
  | nil => simp [insertById]
  | cons x xs ih =>
    rw [insertById]
    split_ifs
    · exact List.Perm.refl _
    · exact List.Perm.trans (List.Perm.cons x ih) (List.Perm.swap r x xs)

/-- Sorting permutes the list. -/
theorem sortById_perm : ∀ l : List WarnRow, List.Perm (sortById l) l := by
  intro l
  induction l with
  | nil => exact List.Perm.refl _
  | cons x xs ih =>
    have h1 : sortById (x :: xs) = insertById x (sortById xs) := rfl
    rw [h1]
    exact List.Perm.trans (insertById_perm x (sortById xs)) (List.Perm.cons x ih)

/-- Insertion preserves sortedness by id. -/
theorem insertById_pairwise (r : WarnRow) :
    ∀ l : List WarnRow, l.Pairwise (fun a b => a.id ≤ b.id) →
      (insertById r l).Pairwise (fun a b => a.id ≤ b.id) := by
  intro l
  induction l with
  | nil => intro _; simp [insertById]
  | cons x xs ih =>
    intro h
    rw [List.pairwise_cons] at h
    rw [insertById]
    split_ifs with hle
    · rw [List.pairwise_cons]
      refine ⟨?_, List.pairwise_cons.mpr h⟩
      intro y hy
      rcases List.mem_cons.mp hy with hy | hy
      · rw [hy]; exact hle
      · exact le_trans hle (h.1 y hy)
    · rw [List.pairwise_cons]
      refine ⟨?_, ih h.2⟩
      intro y hy
      have hy2 := (insertById_perm r xs).mem_iff.mp hy
      rcases List.mem_cons.mp hy2 with hy2 | hy2
      · rw [hy2]; omega
      · exact h.1 y hy2

/-- The result of sorting is sorted by id. -/
theorem sortById_pairwise : ∀ l : List WarnRow,
    (sortById l).Pairwise (fun a b => a.id ≤ b.id) := by
  intro l
  induction l with
  | nil => exact List.Pairwise.nil
  | cons x xs ih => exact insertById_pairwise x (sortById xs) ih

/-- A list whose getLast? is some a contains a. -/
theorem mem_of_getLast?_eq_some {α : Type} {l : List α} {a : α}
    (h : l.getLast? = some a) : a ∈ l := by
  obtain ⟨hne, heq⟩ := List.mem_getLast?_eq_getLast (show a ∈ l.getLast? from h)
  rw [heq]
  exact List.getLast_mem hne

/-- In a list sorted by id, the last element has the largest id. -/
theorem pairwise_getLast_max :
    ∀ l : List WarnRow, l.Pairwise (fun a b => a.id ≤ b.id) →
      ∀ last, l.getLast? = some last → ∀ x ∈ l, x.id ≤ last.id := by
  intro l
  induction l with
  | nil => intro _ last _ x hx; cases hx
  | cons a t ih =>
    intro h last hlast x hx
    cases t with
    | nil =>
      simp only [List.getLast?_singleton, Option.some.injEq] at hlast
      rcases List.mem_singleton.mp hx with hx
      rw [hx, hlast]
    | cons b t2 =>
      rw [List.getLast?_cons_cons] at hlast
      rw [List.pairwise_cons] at h
      rcases List.mem_cons.mp hx with hx | hx
      · have hmem : last ∈ b :: t2 := mem_of_getLast?_eq_some hlast
        rw [hx]
        exact h.1 last hmem
      · exact ih h.2 last hlast x hx

/-- C8: the effective reason is the caller string when nonempty and the canned
default when empty or absent; add_warning appends exactly one row, and the
subsequent list of warnings for the user is the previous list followed by the
new (reason, current date) record. -/
theorem add_warning_spec (db : WarnDB) (u : Nat) (reason : Option String)
    (today : String) (hmax : ∀ r ∈ db.rows, r.id < db.next_id) :
    (∀ s : String, s ≠ "" → warn_effective_reason (some s) = s)
  ∧ warn_effective_reason none = "Warning administered"
  ∧ warn_effective_reason (some "") = "Warning administered"
  ∧ (add_warning db u (warn_effective_reason reason) today).rows.length
      = db.rows.length + 1
  ∧ get_all_warnings (add_warning db u (warn_effective_reason reason) today) u
      = get_all_warnings db u ++ [(warn_effective_reason reason, today)] := by
  refine ⟨?_, rfl, rfl, ?_, ?_⟩
  · intro s hs
    simp [warn_effective_reason, hs]
  · simp [add_warning]
  · simp only [get_all_warnings, add_warning]
    rw [List.filter_append]
    have hnew : List.filter (fun r => decide (r.user_id = u))
        [WarnRow.mk db.next_id u (warn_effective_reason reason) today]
        = [WarnRow.mk db.next_id u (warn_effective_reason reason) today] := by
      simp
    rw [hnew]
    rw [sortById_append_big _ _ ?hle]
    case hle =>
      intro x hx
      have hx2 := List.mem_of_mem_filter hx
      exact le_of_lt (hmax x hx2)
    rw [List.map_append]
    rfl

/-- Witness for C8: adding a warning with an explicit reason to a one-row
table lists the old record followed by the new one. -/
theorem add_warning_spec_witness :
    (∀ s : String, s ≠ "" → warn_effective_reason (some s) = s)
  ∧ warn_effective_reason none = "Warning administered"
  ∧ warn_effective_reason (some "") = "Warning administered"
  ∧ (add_warning (WarnDB.mk [⟨1, 5, "spam", "2024-01-01"⟩] 2) 5
        (warn_effective_reason (some "rude")) "2024-02-02").rows.length
      = [WarnRow.mk 1 5 "spam" "2024-01-01"].length + 1
  ∧ get_all_warnings (add_warning (WarnDB.mk [⟨1, 5, "spam", "2024-01-01"⟩] 2) 5
        (warn_effective_reason (some "rude")) "2024-02-02") 5
      = get_all_warnings (WarnDB.mk [⟨1, 5, "spam", "2024-01-01"⟩] 2) 5
          ++ [(warn_effective_reason (some "rude"), "2024-02-02")] :=
  add_warning_spec (WarnDB.mk [⟨1, 5, "spam", "2024-01-01"⟩] 2) 5 (some "rude")
    "2024-02-02" (by decide)

/-- C9: when the user has at least one warning row, remove_last_warning
returns true and deletes exactly the row of that user with the largest id,
leaving every other row of every user in place; when the user has none it
returns false and the table is unchanged. -/
theorem remove_last_warning_spec (db : WarnDB) (u : Nat)
    (hids : (db.rows.map WarnRow.id).Nodup) :
    ((∀ r ∈ db.rows, r.user_id ≠ u) → remove_last_warning db u = (false, db))
  ∧ ((∃ r ∈ db.rows, r.user_id = u) →
      (remove_last_warning db u).1 = true
      ∧ ∃ w ∈ db.rows, w.user_id = u
          ∧ (∀ r ∈ db.rows, r.user_id = u → r.id ≤ w.id)
          ∧ w ∉ (remove_last_warning db u).2.rows
          ∧ (∀ r ∈ db.rows, r ≠ w → r ∈ (remove_last_warning db u).2.rows)
          ∧ (∀ r ∈ (remove_last_warning db u).2.rows, r ∈ db.rows)) := by
  constructor
  · intro hnone
    have hfl : db.rows.filter (fun r => r.user_id = u) = [] := by
      rw [List.filter_eq_nil_iff]
      intro a ha
      simp [hnone a ha]
    rw [remove_last_warning, hfl]
    rfl
  · intro hex
    obtain ⟨r0, hr0, hr0u⟩ := hex
    have hr0f : r0 ∈ db.rows.filter (fun r => r.user_id = u) :=
      List.mem_filter.mpr ⟨hr0, by simp [hr0u]⟩
    have hne : sortById (db.rows.filter (fun r => r.user_id = u)) ≠ [] := by
      intro hnil
      have := (sortById_perm (db.rows.filter (fun r => r.user_id = u))).mem_iff.mpr hr0f
      rw [hnil] at this
      cases this
    cases hlast : (sortById (db.rows.filter (fun r => r.user_id = u))).getLast? with
    | none =>
      exact absurd (List.getLast?_eq_none_iff.mp hlast) hne
    | some w =>
      have hres : remove_last_warning db u
          = (true, ⟨db.rows.filter (fun r => r.id ≠ w.id), db.next_id⟩) := by
        rw [remove_last_warning, hlast]
      have hwmem : w ∈ db.rows.filter (fun r => r.user_id = u) := by
        have hm := mem_of_getLast?_eq_some hlast
        exact (sortById_perm _).mem_iff.mp hm
      have hwrow := List.mem_of_mem_filter hwmem
      have hwu : w.user_id = u := by
        have := (List.mem_filter.mp hwmem).2
        simpa using this
      refine ⟨by rw [hres], w, hwrow, hwu, ?_, ?_, ?_, ?_⟩
      · intro r hr hru
        have hrf : r ∈ db.rows.filter (fun x => x.user_id = u) :=
          List.mem_filter.mpr ⟨hr, by simp [hru]⟩
        have hrs : r ∈ sortById (db.rows.filter (fun x => x.user_id = u)) :=
          (sortById_perm _).mem_iff.mpr hrf
        exact pairwise_getLast_max _ (sortById_pairwise _) w hlast r hrs
      · rw [hres]
        intro hwin
        have := (List.mem_filter.mp hwin).2
        simp at this
      · intro r hr hrw
        rw [hres]
        refine List.mem_filter.mpr ⟨hr, ?_⟩
        simp only [decide_eq_true_eq]
        intro hid
        exact hrw (List.inj_on_of_nodup_map hids hr hwrow hid)
      · intro r hr
        rw [hres] at hr
        exact List.mem_of_mem_filter hr

/-- Witness for C9 on a three-row table: both branches of the theorem at
user 5 and at warning-free user 6. -/
theorem remove_last_warning_spec_witness :
    (∃ r ∈ (WarnDB.mk [⟨1, 5, "a", "d1"⟩, ⟨2, 5, "b", "d2"⟩, ⟨3, 7, "c", "d3"⟩] 4).rows,
        r.user_id = 5)
  ∧ (remove_last_warning
        (WarnDB.mk [⟨1, 5, "a", "d1"⟩, ⟨2, 5, "b", "d2"⟩, ⟨3, 7, "c", "d3"⟩] 4) 5).1
      = true :=
  ⟨⟨⟨1, 5, "a", "d1"⟩, by decide, rfl⟩,
    ((remove_last_warning_spec
        (WarnDB.mk [⟨1, 5, "a", "d1"⟩, ⟨2, 5, "b", "d2"⟩, ⟨3, 7, "c", "d3"⟩] 4) 5
        (by decide)).2
      ⟨⟨1, 5, "a", "d1"⟩, by decide, rfl⟩).1⟩

/- ------------------ Schema migration (bot.py 45-106) ------------------ -/

/-- The fixed reason written for rows expanded from a legacy count (bot.py 99). -/
def migratedReason : String := "Migrated from legacy count"

/-- The canned reason substituted for a null legacy reason (bot.py 87). -/
def cannedReason : String := "Warning administered"

/-- The possible shapes of the user_warnings table: the very old count-only
shape, the mixed shape that also carries reason/date columns, and the current
shape (no warnings column). Row entries: legacyCount is (user_id, warnings),
legacyMixed is (user_id, warnings, reason, date) with nullable reason/date,
current is (user_id, reason, date). -/
inductive WarnTable
  | legacyCount (rows : List (Nat × Int))
  | legacyMixed (rows : List (Nat × Int × Option String × Option String))
  | current (rows : List (Nat × String × String))
deriving DecidableEq

/-- The COALESCE copy of the mixed branch (bot.py 84-90). -/
def coalesceMixed (today : String) (rows : List (Nat × Int × Option String × Option String)) :
    List (Nat × String × String) :=
  rows.map (fun p => (p.1, p.2.2.1.getD cannedReason, p.2.2.2.getD today))

/-- The count-expansion loop of the oldest branch (bot.py 93-100): every
(user, count) row becomes count rows with the fixed reason and the run date;
a null count was already coerced to 0 and range of a negative count is empty,
so the effective multiplicity is toNat of the count. -/
def expandCountRows (today : String) : List (Nat × Int) → List (Nat × String × String)
  | [] => []
  | p :: rest =>
      List.replicate p.2.toNat (p.1, migratedReason, today) ++ expandCountRows today rest

/-- Embedding of migrate_user_warnings_table (bot.py 57-106) as a function on
table shapes: a table without the warnings column is returned unchanged
(bot.py 66-68); a mixed table is copied with COALESCE defaults; a count-only
table is expanded. -/
def migrate_user_warnings_table (today : String) : WarnTable → WarnTable
  | .current rows => .current rows
  | .legacyMixed rows => .current (coalesceMixed today rows)
  | .legacyCount rows => .current (expandCountRows today rows)

/-- Filtering a replicate keeps all or nothing. -/
theorem filter_replicate_eq {α : Type} (p : α → Bool) (a : α) :
    ∀ n : Nat, (List.replicate n a).filter p
      = if p a then List.replicate n a else [] := by
  intro n
  induction n with
  | zero => simp
  | succ n ih =>
    rw [List.replicate_succ, List.filter_cons, ih]
    split_ifs with h
    · rfl
    · rfl

/-- Users absent from the legacy rows receive no expanded rows. -/
theorem expandCountRows_filter_not_mem (today : String) (u : Nat) :
    ∀ rows : List (Nat × Int), u ∉ rows.map Prod.fst →
      (expandCountRows today rows).filter (fun r => r.1 = u) = [] := by
  intro rows
  induction rows with
  | nil => intro _; rfl
  | cons p rest ih =>
    intro hu
    rw [List.map_cons] at hu
    have hne : p.1 ≠ u := fun heq => hu (heq ▸ List.mem_cons_self p.1 _)
    rw [expandCountRows, List.filter_append, filter_replicate_eq,
        if_neg (by simp [hne]), ih (fun h => hu (List.mem_cons_of_mem _ h))]
    rfl

/-- Each legacy (user, count) row of a duplicate-free legacy table expands to
exactly toNat count rows for that user. -/
theorem expandCountRows_per_user (today : String) :
    ∀ (rows : List (Nat × Int)) (u : Nat) (c : Int),
      (rows.map Prod.fst).Nodup → (u, c) ∈ rows →
      ((expandCountRows today rows).filter (fun r => r.1 = u)).length = c.toNat := by
  intro rows
  induction rows with
  | nil => intro u c _ hmem; cases hmem
  | cons p rest ih =>
    intro u c hnd hmem
    rw [List.map_cons, List.nodup_cons] at hnd
    rw [expandCountRows, List.filter_append, List.length_append, filter_replicate_eq]
    rcases List.mem_cons.mp hmem with hm | hm
    · have hp1 : p.1 = u := by rw [← hm]
      have hp2 : p.2 = c := by rw [← hm]
      rw [if_pos (by simp [hp1])]
      rw [expandCountRows_filter_not_mem today u rest (hp1 ▸ hnd.1)]
      simp [hp2]
    · have hu : u ∈ rest.map Prod.fst :=
        List.mem_map.mpr ⟨(u, c), hm, rfl⟩
      have hne : p.1 ≠ u := fun h => hnd.1 (h ▸ hu)
      rw [if_neg (by simp [hne])]
      rw [ih u c hnd.2 hm]
      simp

/-- Every expanded row carries the fixed migrated reason and the run date. -/
theorem expandCountRows_fields (today : String) :
    ∀ rows : List (Nat × Int), ∀ r ∈ expandCountRows today rows,
      r.2.1 = migratedReason ∧ r.2.2 = today := by
  intro rows
  induction rows with
  | nil => intro r hr; cases hr
  | cons p rest ih =>
    intro r hr
    rw [expandCountRows] at hr
    rcases List.mem_append.mp hr with hr | hr
    · have := List.eq_of_mem_replicate hr
      rw [this]
      exact ⟨rfl, rfl⟩
    · exact ih r hr

/-- C2: migrating a count-only legacy table with pairwise-distinct users
produces, for every row (user, count), exactly count rows for that user (toNat
of the count; counts are nonnegative in practice), each carrying the fixed
migrated reason and the run date; and a second migration run on the resulting
current-shape table changes nothing. -/
theorem migrate_legacy_count_spec (today today2 : String) (rows : List (Nat × Int))
    (hnd : (rows.map Prod.fst).Nodup) :
    migrate_user_warnings_table today (WarnTable.legacyCount rows)
      = WarnTable.current (expandCountRows today rows)
  ∧ (∀ u c, (u, c) ∈ rows →
      ((expandCountRows today rows).filter (fun r => r.1 = u)).length = c.toNat)
  ∧ (∀ r ∈ expandCountRows today rows, r.2.1 = migratedReason ∧ r.2.2 = today)
  ∧ migrate_user_warnings_table today2
        (migrate_user_warnings_table today (WarnTable.legacyCount rows))
      = migrate_user_warnings_table today (WarnTable.legacyCount rows) :=
  ⟨rfl,
   fun u c hm => expandCountRows_per_user today rows u c hnd hm,
   expandCountRows_fields today rows,
   rfl⟩

/-- Witness for C2: the single legacy row (user 5, count 3) expands to exactly
3 rows for user 5. -/
theorem migrate_legacy_count_spec_witness :
    ((expandCountRows "2024-03-03" [(5, 3)]).filter (fun r => r.1 = 5)).length
      = (3 : Int).toNat :=
  (migrate_legacy_count_spec "2024-03-03" "2024-04-04" [(5, 3)] (by decide)).2.1
    5 3 (by decide)

/- ---- Transactional execution of the migration (CPython sqlite3 semantics) ---- -/

/-- The statements the migration issues against the warnings tables. -/
inductive Stmt
  | createUwNew
  | insertUwNew (row : Nat × String × String)
  | insertSelectMixed (today : String)
  | dropUserWarnings
  | renameUwNew

/-- Which statements are DML: the sqlite3 module implicitly opens a
transaction before INSERT/UPDATE/DELETE/REPLACE statements only; DDL such as
CREATE/DROP/ALTER joins an open transaction but never opens one. -/
def Stmt.isDML : Stmt → Bool
  | .insertUwNew _ => true
  | .insertSelectMixed _ => true
  | _ => false

/-- The database tables the migration can see: the canonical user_warnings
table, and the replacement table _uw_new when it exists. -/
structure DBState where
  user_warnings : Option WarnTable
  uw_new : Option (List (Nat × String × String))

/-- Effect of one statement on the database. -/
def applyStmt : Stmt → DBState → DBState
  | .createUwNew, d => { d with uw_new := some (d.uw_new.getD []) }
  | .insertUwNew r, d => { d with uw_new := d.uw_new.map (fun l => l ++ [r]) }
  | .insertSelectMixed today, d =>
      match d.user_warnings with
      | some (.legacyMixed rows) =>
          { d with uw_new := d.uw_new.map (fun l => l ++ coalesceMixed today rows) }
      | _ => d
  | .dropUserWarnings, d => { d with user_warnings := none }
  | .renameUwNew, d =>
      match d.uw_new with
      | some rows => ⟨some (.current rows), none⟩
      | none => d

/-- A connection: the committed database plus the open implicit transaction
when there is one. -/
structure Conn where
  committed : DBState
  txn : Option DBState

/-- Executing one statement on a connection: inside an open transaction the
statement applies to the transaction state; with no transaction open, a DML
statement opens one and a non-DML statement autocommits. -/
def execStmt (c : Conn) (s : Stmt) : Conn :=
  match c.txn with
  | some d => ⟨c.committed, some (applyStmt s d)⟩
  | none =>
      if s.isDML then ⟨c.committed, some (applyStmt s c.committed)⟩
      else ⟨applyStmt s c.committed, none⟩

/-- Executing a list of statements in order. -/
def execStmts : Conn → List Stmt → Conn
  | c, [] => c
  | c, s :: ss => execStmts (execStmt c s) ss

/-- A crash discards the open transaction: only the committed state survives. -/
def crashState (c : Conn) : DBState := c.committed

/-- The insert statements of the count-expansion branch, one per warning. -/
def insertStmtsCount (today : String) : List (Nat × Int) → List Stmt
  | [] => []
  | p :: rest =>
      List.replicate p.2.toNat (Stmt.insertUwNew (p.1, migratedReason, today))
        ++ insertStmtsCount today rest

/-- The statement script of the count branch of the migration (bot.py 73-104):
create the replacement table, insert the expanded rows, drop the old table,
rename the new one; commit only happens after the whole script. -/
def migrationStmtsCount (today : String) (rows : List (Nat × Int)) : List Stmt :=
  Stmt.createUwNew ::
    (insertStmtsCount today rows ++ [Stmt.dropUserWarnings, Stmt.renameUwNew])

/-- The statement script of the mixed branch (bot.py 73-104): the copy is one
INSERT INTO ... SELECT statement. -/
def migrationStmtsMixed (today : String) : List Stmt :=
  [Stmt.createUwNew, Stmt.insertSelectMixed today,
   Stmt.dropUserWarnings, Stmt.renameUwNew]

/-- Once a transaction is open, no further statement changes the committed
state (the script contains no commit). -/
theorem execStmts_committed_of_txn :
    ∀ (ss : List Stmt) (c : Conn) (d : DBState), c.txn = some d →
      (execStmts c ss).committed = c.committed := by
  intro ss
  induction ss with
  | nil => intro c d _; rfl
  | cons s ss ih =>
    intro c d hd
    rw [execStmts]
    have h1 : execStmt c s = ⟨c.committed, some (applyStmt s d)⟩ := by
      simp [execStmt, hd]
    rw [h1]
    exact ih _ _ rfl

/-- Crash safety of a script of the shape CREATE followed by statements whose
first element, if any, is DML: whatever prefix has executed when the crash
comes, the committed user_warnings table is the original one. -/
theorem crash_committed_preserved (c0 : DBState) (mid : List Stmt)
    (hhead : ∀ s, mid.head? = some s → s.isDML = true) :
    ∀ p q : List Stmt, Stmt.createUwNew :: mid = p ++ q →
      (crashState (execStmts ⟨c0, none⟩ p)).user_warnings = c0.user_warnings := by
  intro p q hsplit
  cases p with
  | nil => rfl
  | cons s p' =>
    rw [List.cons_append] at hsplit
    injection hsplit with hs hrest
    cases p' with
    | nil =>
      rw [← hs]
      rfl
    | cons s' p'' =>
      have hs' : mid.head? = some s' := by rw [hrest]; rfl
      have hdml := hhead s' hs'
      rw [← hs]
      rw [execStmts]
      have hc1 : execStmt ⟨c0, none⟩ Stmt.createUwNew
          = ⟨applyStmt Stmt.createUwNew c0, none⟩ := by
        simp [execStmt, Stmt.isDML]
      rw [hc1, execStmts]
      have hc2 : execStmt ⟨applyStmt Stmt.createUwNew c0, none⟩ s'
          = ⟨applyStmt Stmt.createUwNew c0,
             some (applyStmt s' (applyStmt Stmt.createUwNew c0))⟩ := by
        simp [execStmt, hdml]
      rw [hc2]
      rw [crashState, execStmts_committed_of_txn p'' _ _ rfl]
      rfl

/-- Every statement of the count expansion is an insert. -/
theorem insertStmtsCount_mem (today : String) :
    ∀ rows : List (Nat × Int), ∀ s ∈ insertStmtsCount today rows,
      ∃ r, s = Stmt.insertUwNew r := by
  intro rows
  induction rows with
  | nil => intro s hs; cases hs
  | cons p rest ih =>
    intro s hs
    rw [insertStmtsCount] at hs
    rcases List.mem_append.mp hs with hs | hs
    · exact ⟨_, List.eq_of_mem_replicate hs⟩
    · exact ih s hs

/-- A legacy table with at least one positive count yields at least one insert. -/
theorem insertStmtsCount_ne_nil (today : String) :
    ∀ rows : List (Nat × Int), (∃ x ∈ rows, 0 < x.2) →
      insertStmtsCount today rows ≠ [] := by
  intro rows
  induction rows with
  | nil =>
    rintro ⟨x, hx, _⟩
    cases hx
  | cons p rest ih =>
    rintro ⟨x, hx, hpos⟩ hnil
    rw [insertStmtsCount, List.append_eq_nil] at hnil
    rcases List.mem_cons.mp hx with hx | hx
    · have h0 := (List.replicate_eq_nil_iff _).mp hnil.1
      rw [← hx] at h0
      omega
    · exact ih ⟨x, hx, hpos⟩ hnil.2

/-- C1 amended: when the migration actually inserts rows (count branch with at
least one positive count, and always in the mixed branch, whose single INSERT
SELECT statement opens the implicit transaction even for zero rows), a crash
at any statement boundary of the script leaves the committed user_warnings
table exactly as it was, because the inserts, the DROP and the RENAME all run
inside one implicit transaction that is never committed before the end. -/
theorem migration_crash_safety :
    (∀ (today : String) (rows : List (Nat × Int)) (t : WarnTable) (p q : List Stmt),
        (∃ x ∈ rows, 0 < x.2) →
        migrationStmtsCount today rows = p ++ q →
        (crashState (execStmts ⟨⟨some t, none⟩, none⟩ p)).user_warnings = some t)
  ∧ (∀ (today : String) (t : WarnTable) (p q : List Stmt),
        migrationStmtsMixed today = p ++ q →
        (crashState (execStmts ⟨⟨some t, none⟩, none⟩ p)).user_warnings = some t) := by
  constructor
  · intro today rows t p q hpos hsplit
    refine crash_committed_preserved ⟨some t, none⟩
      (insertStmtsCount today rows ++ [Stmt.dropUserWarnings, Stmt.renameUwNew])
      ?_ p q hsplit
    intro s hs
    cases hins : insertStmtsCount today rows with
    | nil => exact absurd hins (insertStmtsCount_ne_nil today rows hpos)
    | cons i is =>
      rw [hins, List.cons_append, List.head?_cons, Option.some.injEq] at hs
      obtain ⟨r, hr⟩ := insertStmtsCount_mem today rows i
        (by rw [hins]; exact List.mem_cons_self i is)
      rw [← hs, hr]
      rfl
  · intro today t p q hsplit
    refine crash_committed_preserved ⟨some t, none⟩
      [Stmt.insertSelectMixed today, Stmt.dropUserWarnings, Stmt.renameUwNew]
      ?_ p q hsplit
    intro s hs
    rw [List.head?_cons, Option.some.injEq] at hs
    rw [← hs]
    rfl

/-- Witness for C1: with legacy rows (5, 2), a crash after CREATE, the two
inserts and the DROP but before the final RENAME (and before the commit)
still shows the original legacy table as committed. -/
theorem migration_crash_safety_witness :
    (crashState (execStmts ⟨⟨some (WarnTable.legacyCount [(5, 2)]), none⟩, none⟩
        [Stmt.createUwNew, Stmt.insertUwNew (5, migratedReason, "2026-01-01"),
         Stmt.insertUwNew (5, migratedReason, "2026-01-01"),
         Stmt.dropUserWarnings])).user_warnings
      = some (WarnTable.legacyCount [(5, 2)]) :=
  migration_crash_safety.1 "2026-01-01" [(5, 2)] (WarnTable.legacyCount [(5, 2)])
    [Stmt.createUwNew, Stmt.insertUwNew (5, migratedReason, "2026-01-01"),
     Stmt.insertUwNew (5, migratedReason, "2026-01-01"), Stmt.dropUserWarnings]
    [Stmt.renameUwNew]
    ⟨(5, 2), by decide, by decide⟩ rfl

/-- C1 counterexample: with the legacy count table holding the single row
(user 5, count 0), the expansion issues no INSERT, so no implicit transaction
is open when DROP TABLE runs and the drop autocommits on its own: a crash
after the first two statements of the actual script (CREATE then DROP) leaves
a committed state with no user_warnings table at all, so the original table
was not left untouched and the swap was not a single transaction. -/
theorem migration_crash_counterexample :
    migrationStmtsCount "2026-10-12" [(5, 0)]
      = [Stmt.createUwNew, Stmt.dropUserWarnings, Stmt.renameUwNew]
  ∧ (crashState (execStmts ⟨⟨some (WarnTable.legacyCount [(5, 0)]), none⟩, none⟩
        [Stmt.createUwNew, Stmt.dropUserWarnings])).user_warnings = none :=
  ⟨rfl, rfl⟩

/- ------------------ Bulk adjustment (fpall, bot.py 229-260) ------------------ -/

/-- A guild member as fpall sees it: id, bot flag and current roles. -/
structure GuildMember where
  id : Nat
  bot : Bool
  roles : List Role
deriving DecidableEq

/-- The loop state of fpall: the score store plus the updated, skipped-bots
and failed-syncs counters, and the ids for which a role sync was attempted. -/
structure FpallAcc where
  store : FpStore
  updated : Nat
  skipped_bots : Nat
  failed_syncs : Nat
  synced_ids : List Nat

/-- One iteration of the fpall member loop (bot.py 237-253): a bot member is
skipped entirely; otherwise read, add delta, write, attempt the role sync and
bump the counters. Nothing in the pure model raises, so the per-member
try/except has no visible effect here. -/
def fpall_step (env : RoleEnv) (delta : Int) (acc : FpallAcc) (m : GuildMember) :
    FpallAcc :=
  if m.bot then
    { acc with skipped_bots := acc.skipped_bots + 1 }
  else
    ⟨set_fp acc.store m.id (get_fp acc.store m.id + delta),
     acc.updated + 1,
     acc.skipped_bots,
     acc.failed_syncs
       + (if (sync_member_fp_role env m.roles (get_fp acc.store m.id + delta)).1
          then 0 else 1),
     acc.synced_ids ++ [m.id]⟩

/-- Embedding of the fpall command body (bot.py 229-260). -/
def fpall (env : RoleEnv) (delta : Int) (members : List GuildMember) (s : FpStore) :
    FpallAcc :=
  members.foldl (fpall_step env delta) ⟨s, 0, 0, 0, []⟩

/-- The stored score of an id owned by no non-bot member never changes. -/
theorem fpall_foldl_store (env : RoleEnv) (delta : Int) (i : Nat) :
    ∀ (ms : List GuildMember) (acc : FpallAcc),
      (∀ m ∈ ms, m.bot = false → m.id ≠ i) →
      (ms.foldl (fpall_step env delta) acc).store i = acc.store i := by
  intro ms
  induction ms with
  | nil => intro acc _; rfl
  | cons m ms ih =>
    intro acc h
    rw [List.foldl_cons, ih _ (fun x hx => h x (List.mem_cons_of_mem m hx))]
    rw [fpall_step]
    by_cases hb : m.bot = true
    · rw [if_pos hb]
    · have hb2 : m.bot = false := by
        cases hbot : m.bot
        · rfl
        · exact absurd hbot hb
      have hne : m.id ≠ i := h m (List.mem_cons_self m ms) hb2
      rw [if_neg hb]
      show (if i = m.id then _ else acc.store i) = acc.store i
      rw [if_neg (Ne.symm hne)]

/-- The sync log of the loop is exactly the non-bot member ids in order. -/
theorem fpall_foldl_synced (env : RoleEnv) (delta : Int) :
    ∀ (ms : List GuildMember) (acc : FpallAcc),
      (ms.foldl (fpall_step env delta) acc).synced_ids
        = acc.synced_ids ++ (ms.filter (fun x => !x.bot)).map GuildMember.id := by
  intro ms
  induction ms with
  | nil => intro acc; simp
  | cons m ms ih =>
    intro acc
    rw [List.foldl_cons, ih, List.filter_cons]
    by_cases hb : m.bot = true
    · rw [fpall_step, if_pos hb]
      simp [hb]
    · have hb2 : m.bot = false := by
        cases hbot : m.bot
        · rfl
        · exact absurd hbot hb
      rw [fpall_step, if_neg hb]
      simp [hb2]

/-- The updated counter of the loop counts exactly the non-bot members. -/
theorem fpall_foldl_updated (env : RoleEnv) (delta : Int) :
    ∀ (ms : List GuildMember) (acc : FpallAcc),
      (ms.foldl (fpall_step env delta) acc).updated
        = acc.updated + (ms.filter (fun x => !x.bot)).length := by
  intro ms
  induction ms with
  | nil => intro acc; rfl
  | cons m ms ih =>
    intro acc
    rw [List.foldl_cons, ih, List.filter_cons]
    by_cases hb : m.bot = true
    · rw [fpall_step, if_pos hb]
      simp [hb]
    · have hb2 : m.bot = false := by
        cases hbot : m.bot
        · rfl
        · exact absurd hbot hb
      rw [fpall_step, if_neg hb]
      simp [hb2]
      omega

/-- C10: during the bulk adjustment every bot member is skipped entirely:
when no non-bot member shares its id, its stored score is unchanged, its id
never enters the sync log, and the reported updated count is exactly the
number of non-bot members. -/
theorem fpall_skips_bots (env : RoleEnv) (delta : Int) (members : List GuildMember)
    (s : FpStore) (m : GuildMember) (hm : m ∈ members) (hbot : m.bot = true)
    (hid : ∀ m2 ∈ members, m2.bot = false → m2.id ≠ m.id) :
    (fpall env delta members s).store m.id = s m.id
  ∧ m.id ∉ (fpall env delta members s).synced_ids
  ∧ (fpall env delta members s).updated
      = (members.filter (fun x => !x.bot)).length := by
  refine ⟨?_, ?_, ?_⟩
  · exact fpall_foldl_store env delta m.id members _ hid
  · rw [fpall, fpall_foldl_synced]
    simp only [List.nil_append]
    intro hmem
    obtain ⟨m2, hm2f, hm2id⟩ := List.mem_map.mp hmem
    have hm2 := List.mem_filter.mp hm2f
    have hb2 : m2.bot = false := by simpa using hm2.2
    exact hid m2 hm2.1 hb2 hm2id
  · rw [fpall, fpall_foldl_updated]
    simp

/-- Witness for C10: a bot member with id 1 beside a human member with id 2;
after fpall the bot keeps no score row, is absent from the sync log, and the
updated count is 1. -/
theorem fpall_skips_bots_witness :
    (fpall ⟨[], fun _ => false, fun _ => false⟩ 4
        [⟨1, true, []⟩, ⟨2, false, []⟩] (fun _ => none)).store 1
      = (fun _ => none : FpStore) 1
  ∧ (GuildMember.mk 1 true []).id ∉ (fpall ⟨[], fun _ => false, fun _ => false⟩ 4
        [⟨1, true, []⟩, ⟨2, false, []⟩] (fun _ => none)).synced_ids
  ∧ (fpall ⟨[], fun _ => false, fun _ => false⟩ 4
        [⟨1, true, []⟩, ⟨2, false, []⟩] (fun _ => none)).updated
      = (List.filter (fun x => !x.bot)
          [GuildMember.mk 1 true [], GuildMember.mk 2 false []]).length :=
  fpall_skips_bots ⟨[], fun _ => false, fun _ => false⟩ 4
    [⟨1, true, []⟩, ⟨2, false, []⟩] (fun _ => none) ⟨1, true, []⟩
    (List.mem_cons_self _ _) rfl (by decide)

end ComBot
